import Mathlib

/-!
Verification of the mGBA CLI debugger (`src/debugger/cli-debugger.c`).

The development shallowly embeds the debugger's data model and operations:
the expression evaluator (`_performOperation`, `_evaluateParseTree`), the
argument-list builder (`_DVParse`), the command registry and dispatcher
(`_debuggerCommands`, `_parse`), the console-loop history step
(`_commandLine`), tab completion (`_tabComplete`), and the command handlers.
Machine integers are modelled as `Nat` with explicit reduction modulo `2 ^ 32`
where 32-bit wraparound matters.  The lexer and expression parser
(`lexExpression` / `parseLexedExpression`, which live outside this
repository's sources) are abstracted as a segment evaluator parameter; see
`_DVParse` below.
-/

namespace CLIDebugger

/-- `enum Operation` from parser.h: the five expression operators. -/
inductive Operation
| assign
| add
| subtract
| multiply
| divide
deriving DecidableEq, Repr

/-- `struct ParseTree`: a leaf holds an unsigned-integer token, an inner node
holds an operator token plus the left and right subtrees; identifier and
error tokens are childless leaves.  Leaf values are `uint32_t` in the source;
`wellFormed` records the bound. -/
inductive ParseTree
| num (v : Nat)
| ident
| err
| node (op : Operation) (lhs rhs : ParseTree)
deriving DecidableEq, Repr

/-- `_performOperation` (cli-debugger.c lines 277-301): combine two `uint32_t`
operands; division by zero sets the error flag (the `dv->type` field in C) and
returns 0.  All arithmetic wraps modulo `2 ^ 32`. -/
def _performOperation (op : Operation) (current next : Nat) (e : Bool) : Nat × Bool :=
  match op with
  | Operation.assign => (next, e)
  | Operation.add => ((current + next) % 2 ^ 32, e)
  | Operation.subtract => ((current + (2 ^ 32 - next % 2 ^ 32)) % 2 ^ 32, e)
  | Operation.multiply => ((current * next) % 2 ^ 32, e)
  | Operation.divide => if next ≠ 0 then (current / next, e) else (0, true)

/-- `_evaluateParseTree` (lines 303-314): depth-first evaluation; the error
flag models the `dv->type = DV_ERROR_TYPE` writes, which are monotone (never
cleared), so the flag is threaded left child, right child, operator. -/
def _evaluateParseTree : ParseTree → Bool → Nat × Bool
| ParseTree.num v, e => (v, e)
| ParseTree.ident, _ => (0, true)
| ParseTree.err, _ => (0, true)
| ParseTree.node op l r, e =>
  let lv := _evaluateParseTree l e
  let rv := _evaluateParseTree r lv.2
  _performOperation op lv.1 rv.1 rv.2

/-- Value computed for a tree (the error flag never influences values, see
`evaluateParseTree_eq`). -/
def treeVal : ParseTree → Nat
| ParseTree.num v => v
| ParseTree.ident => 0
| ParseTree.err => 0
| ParseTree.node op l r => (_performOperation op (treeVal l) (treeVal r) false).1

/-- Error flag contributed by evaluating a tree (the incoming flag is only
ever OR-ed with this, see `evaluateParseTree_eq`). -/
def treeErr : ParseTree → Bool
| ParseTree.num _ => false
| ParseTree.ident => true
| ParseTree.err => true
| ParseTree.node op l r =>
  treeErr l || treeErr r || (_performOperation op (treeVal l) (treeVal r) false).2

/-- A tree is well formed when it contains only unsigned-integer leaves
(with `uint32_t`-bounded values) and operator nodes. -/
def wellFormed : ParseTree → Bool
| ParseTree.num v => v < 2 ^ 32
| ParseTree.ident => false
| ParseTree.err => false
| ParseTree.node _ l r => wellFormed l && wellFormed r

/-- Specification-side evaluator: standard unsigned 32-bit arithmetic with
wraparound, written from the spec's words, independently of
`_evaluateParseTree`. -/
def specEval32 : ParseTree → Nat
| ParseTree.num v => v % 2 ^ 32
| ParseTree.ident => 0
| ParseTree.err => 0
| ParseTree.node Operation.assign _ r => specEval32 r
| ParseTree.node Operation.add l r => (specEval32 l + specEval32 r) % 2 ^ 32
| ParseTree.node Operation.subtract l r => (specEval32 l + (2 ^ 32 - specEval32 r)) % 2 ^ 32
| ParseTree.node Operation.multiply l r => (specEval32 l * specEval32 r) % 2 ^ 32
| ParseTree.node Operation.divide l r => specEval32 l / specEval32 r

/-- No division node in the tree has a right child evaluating to zero. -/
def noDivZero : ParseTree → Bool
| ParseTree.num _ => true
| ParseTree.ident => true
| ParseTree.err => true
| ParseTree.node op l r =>
  noDivZero l && noDivZero r && (op ≠ Operation.divide || specEval32 r ≠ 0)

/-- Some division node's right child evaluates to zero. -/
def hasDivZero : ParseTree → Bool
| ParseTree.num _ => false
| ParseTree.ident => false
| ParseTree.err => false
| ParseTree.node op l r =>
  hasDivZero l || hasDivZero r || (op = Operation.divide && treeVal r = 0)

/-- `enum DVType` (lines 13-17). -/
inductive DVType
| error
| int
| char
deriving DecidableEq, Repr

/-- `struct DebugVector` node (lines 11-22): a type tag plus the integer
payload (`intValue`, a 32-bit field; values built by `_DVParse` are the
`uint32_t` results of `_evaluateParseTree`).  The `next` chain is modelled by
a `List DVNode`, with the empty list standing for the null pointer. -/
structure DVNode where
  type : DVType
  intValue : Nat
deriving DecidableEq, Repr

/-- True when the head node of the sequence exists and has ERROR type
(the `dv && dv->type == DV_ERROR_TYPE` check). -/
def headErr : List DVNode → Bool
| [] => false
| n :: _ => n.type = DVType.error

/-- Segment accumulator: `acc` holds the reversed characters of the segment
being scanned.  A space ends the segment; a space at the very end of the text
ends the recursion (the recursive `_DVParse` call on the empty remainder
returns the null pointer). -/
def dvSegmentsAux : List Char → List Char → List (List Char)
| [], acc => [acc.reverse]
| ' ' :: [], acc => [acc.reverse]
| ' ' :: c :: cs, acc => acc.reverse :: dvSegmentsAux (c :: cs) []
| c :: cs, acc => dvSegmentsAux cs (c :: acc)

/-- Modelled from the spec: the segmentation performed by `lexExpression`
(parser.c, outside this repository's sources).  Per spec 4.2, each expression
segment is the text before the next space, and the recursion continues past
exactly one separating space; empty input yields no segments. -/
def dvSegments : List Char → List (List Char)
| [] => []
| c :: cs => dvSegmentsAux (c :: cs) []

/-- Body of `_DVParse` (lines 316-358) over the segment list: evaluate the
segment (`ev` abstracts `lexExpression` + `parseLexedExpression` +
`_evaluateParseTree`; `none` is a lexical, parse, or evaluation failure).
A failing segment yields a single ERROR node with a null `next` (no further
segments are parsed); otherwise the recursion continues and, if the parsed
tail's head is ERROR, the current node's type is also set to ERROR while its
`next` still points at the tail (lines 350-355). -/
def DVBuild (ev : List Char → Option Nat) : List (List Char) → List DVNode
| [] => []
| seg :: rest =>
  match ev seg with
  | none => [⟨DVType.error, 0⟩]
  | some v =>
    match rest with
    | [] => [⟨DVType.int, v⟩]
    | _ :: _ =>
      let tail := DVBuild ev rest
      (if headErr tail then ⟨DVType.error, v⟩ else ⟨DVType.int, v⟩) :: tail

/-- `_DVParse` (lines 316-358): split the argument text into space-separated
segments and build the argument sequence.  Empty input yields the null
pointer (empty sequence). -/
def _DVParse (ev : List Char → Option Nat) (s : List Char) : List DVNode :=
  DVBuild ev (dvSegments s)

/-- Names of `_debuggerCommands` (lines 48-78), in table order; the final
`{ 0, 0 }` sentinel is the end of the list. -/
def commandNames : List String :=
  ["b", "break", "c", "continue", "d", "delete", "dis", "disasm", "i", "info",
   "n", "next", "p", "p/x", "print", "print/x", "q", "quit", "rb", "rh", "rw",
   "status", "w", "watch", "x"]

/-- ASCII `tolower` on the character codes compared by `strncasecmp`. -/
def lowerC (c : Char) : Nat :=
  if 65 ≤ c.toNat ∧ c.toNat ≤ 90 then c.toNat + 32 else c.toNat

/-- `strncasecmp(a, b, n)`: compare at most `n` characters case-insensitively;
the end of a list is the terminating NUL (code 0). -/
def sncmp : List Char → List Char → Nat → Int
| _, _, 0 => 0
| [], [], _ + 1 => 0
| [], b :: _, _ + 1 => 0 - (lowerC b : Int)
| a :: _, [], _ + 1 => (lowerC a : Int)
| a :: as, b :: bs, n + 1 =>
  if lowerC a = lowerC b then sncmp as bs n
  else (lowerC a : Int) - (lowerC b : Int)

/-- Lookup loop of `_parse` (lines 385-396): skip entries whose name length
differs from the verb length, invoke the first entry matching the first
`n` characters of the line case-insensitively.  Returns the table index. -/
def findCommandAux (line : List Char) (n : Nat) : List String → Nat → Option Nat
| [], _ => none
| nm :: rest, i =>
  if nm.length = n ∧ sncmp nm.toList line n = 0 then some i
  else findCommandAux line n rest (i + 1)

/-- Command lookup over the full table. -/
def findCommand (line : List Char) (n : Nat) : Option Nat :=
  findCommandAux line n commandNames 0

/-- `strchr(line, ' ')`: index of the first space, if any. -/
def firstSpaceIdx (l : List Char) : Option Nat := l.findIdx? (fun c => c = ' ')

/-- `cmdLength` as computed by `_parse` (lines 369-383). -/
def cmdLenOf (l : List Char) : Nat :=
  match firstSpaceIdx l with
  | some i => i
  | none => l.length

/-- The argument sequence `_parse` builds: text after the first space goes
through `_DVParse`; without a space `dv` stays the null pointer. -/
def argsOf (ev : List Char → Option Nat) (l : List Char) : List DVNode :=
  match firstSpaceIdx l with
  | some i => _DVParse ev (l.drop (i + 1))
  | none => []

/-- Observable outcome of `_parse`: the `int` return value, the error lines
printed, and which table entry's handler was invoked (by index). -/
structure ParseOut where
  handled : Bool
  output : List String
  invoked : Option Nat
deriving DecidableEq, Repr

/-- `_parse` (lines 369-400): build the argument sequence; on an ERROR head
print "Parse error" and return 0 without dispatching; otherwise look the verb
up and either invoke the handler (returning 1) or print "Command not found"
and return 0. -/
def _parse (ev : List Char → Option Nat) (line : List Char) : ParseOut :=
  let dv := argsOf ev line
  if headErr dv then ⟨false, ["Parse error"], none⟩
  else
    match findCommand line (cmdLenOf line) with
    | some i => ⟨true, [], some i⟩
    | none => ⟨false, ["Command not found"], none⟩

/-- One iteration of the `_commandLine` read loop (lines 413-428) acting on
the history list (most recent first; entries are raw lines including the
trailing newline, as `H_ENTER` stores them).  Returns the new history and the
list of lines handed to `_parse` this turn (each stripped of its final
character, as `count - 1` / `strlen(ev.str) - 1` do). -/
def _commandLine_step (ev : List Char → Option Nat)
    (hist : List (List Char)) (input : List Char) :
    List (List Char) × List (List Char) :=
  if input.head? = some '\n' then
    match hist.head? with
    | some prev => (hist, [prev.dropLast])
    | none => (hist, [])
  else
    if (_parse ev input.dropLast).handled then (input :: hist, [input.dropLast])
    else (hist, [input.dropLast])

/-- Result of the inner scan loop of `_tabComplete` (lines 456-464): `err` is
the `return CC_ERROR` on a table entry comparing greater than the prefix,
`found cmd` is the `break` on a case-insensitive prefix match, `exhausted`
means the loop ran off the end of the table (the sentinel's NULL name). -/
inductive ScanRes
| err
| found (cmd : Nat)
| exhausted
deriving DecidableEq, Repr

/-- Inner loop of `_tabComplete`: advance `cmd` while the entry name compares
less than the first `len` characters of the buffer. -/
def innerScan (buf : List Char) (len : Nat) : List String → Nat → ScanRes
| [], _ => ScanRes.exhausted
| nm :: rest, cmd =>
  let c := sncmp nm.toList buf len
  if 0 < c then ScanRes.err
  else if c = 0 then ScanRes.found cmd
  else innerScan buf len rest (cmd + 1)

/-- Outer loop of `_tabComplete` (lines 455-465): scan prefix lengths
`len = 0, 1, ..., L` (fuel counts the remaining iterations), keeping the
current candidate index `cmd`.  Once the table is exhausted the remaining
iterations do nothing (the loop condition reads the sentinel's NULL name
immediately), so the scan result is final. -/
def outerScan (buf : List Char) : Nat → Nat → Nat → ScanRes
| 0, _, cmd => ScanRes.found cmd
| fuel + 1, len, cmd =>
  match innerScan buf len (commandNames.drop cmd) cmd with
  | ScanRes.err => ScanRes.err
  | ScanRes.exhausted => ScanRes.exhausted
  | ScanRes.found c => outerScan buf fuel (len + 1) c

/-- Outcome of `_tabComplete`: `noMatch` is `CC_ERROR`, `insert s` is the pair
of `el_insertstr` calls followed by `CC_REDISPLAY`, and `oob` marks the paths
that read `_debuggerCommands[cmd + 1]` past the sentinel entry and offset the
NULL `name` pointer (undefined behavior in the C source). -/
inductive TCRes
| noMatch
| insert (s : String)
| oob
deriving DecidableEq, Repr

/-- `_tabComplete` (lines 449-473) on the buffer up to the cursor.  After the
scan, entry `cmd + 1` is checked against the whole typed prefix (length
`len - 1 = buf.length`) to reject ambiguous prefixes; otherwise the remainder
of the matched name (`name += len - 1`) plus a trailing space is inserted. -/
def _tabComplete (buf : List Char) : TCRes :=
  match outerScan buf (buf.length + 1) 0 0 with
  | ScanRes.err => TCRes.noMatch
  | ScanRes.exhausted => TCRes.oob
  | ScanRes.found cmd =>
    match commandNames.get? cmd with
    | none => TCRes.oob
    | some nm =>
      match commandNames.get? (cmd + 1) with
      | some nxt =>
        if sncmp nxt.toList buf buf.length = 0 then TCRes.noMatch
        else TCRes.insert ((nm.drop buf.length).push ' ')
      | none => TCRes.insert ((nm.drop buf.length).push ' ')

/-- One hexadecimal digit, uppercase (printf `%X`). -/
def hexDigit (n : Nat) : Char :=
  if n < 10 then Char.ofNat (48 + n) else Char.ofNat (55 + n)

/-- Accumulate the uppercase hexadecimal digits of `n` (fuel-bounded). -/
def hexAux : Nat → Nat → List Char → List Char
| 0, _, acc => acc
| _ + 1, 0, acc => acc
| fuel + 1, n, acc => hexAux fuel (n / 16) (hexDigit (n % 16) :: acc)

/-- printf `%0wX`: zero-padded fixed-width uppercase hexadecimal. -/
def hexPad (w n : Nat) : String :=
  let ds := hexAux (n + 1) n []
  let ds := if ds = [] then ['0'] else ds
  String.mk (List.replicate (w - ds.length) '0' ++ ds)

/-- Externally visible actions a handler performs: printed text, memory loads
via the CPU/memory service, and breakpoint/watchpoint service calls. -/
inductive Effect
| print (s : String)
| load8 (a : Nat)
| load16 (a : Nat)
| load32 (a : Nat)
| setBp (a : Nat)
| clearBp (a : Nat)
| setWp (a : Nat)
deriving DecidableEq, Repr

/-- `_setBreakpoint` (lines 245-252): require an INT head node, else print
the missing-arguments message and do nothing. -/
def _setBreakpoint (dv : List DVNode) : List Effect :=
  match dv with
  | ⟨DVType.int, v⟩ :: _ => [Effect.setBp v]
  | _ => [Effect.print "Arguments missing\n"]

/-- `_clearBreakpoint` (lines 254-261). -/
def _clearBreakpoint (dv : List DVNode) : List Effect :=
  match dv with
  | ⟨DVType.int, v⟩ :: _ => [Effect.clearBp v]
  | _ => [Effect.print "Arguments missing\n"]

/-- `_setWatchpoint` (lines 263-270). -/
def _setWatchpoint (dv : List DVNode) : List Effect :=
  match dv with
  | ⟨DVType.int, v⟩ :: _ => [Effect.setWp v]
  | _ => [Effect.print "Arguments missing\n"]

/-- `_readByte` (lines 215-223): `loadU8` abstracts the memory service; the
loaded value is a `uint8_t`, printed as ` 0x%02X`. -/
def _readByte (loadU8 : Nat → Nat) (dv : List DVNode) : List Effect :=
  match dv with
  | ⟨DVType.int, v⟩ :: _ =>
    [Effect.load8 v, Effect.print (" 0x" ++ hexPad 2 (loadU8 v % 2 ^ 8) ++ "\n")]
  | _ => [Effect.print "Arguments missing\n"]

/-- `_readHalfword` (lines 225-233). -/
def _readHalfword (loadU16 : Nat → Nat) (dv : List DVNode) : List Effect :=
  match dv with
  | ⟨DVType.int, v⟩ :: _ =>
    [Effect.load16 v, Effect.print (" 0x" ++ hexPad 4 (loadU16 v % 2 ^ 16) ++ "\n")]
  | _ => [Effect.print "Arguments missing\n"]

/-- `_readWord` (lines 235-243). -/
def _readWord (load32 : Nat → Nat) (dv : List DVNode) : List Effect :=
  match dv with
  | ⟨DVType.int, v⟩ :: _ =>
    [Effect.load32 v, Effect.print (" 0x" ++ hexPad 8 (load32 v % 2 ^ 32) ++ "\n")]
  | _ => [Effect.print "Arguments missing\n"]

/-- `union PSR`: the packed status word plus its decoded flag bits. -/
structure PSR where
  packed : Nat
  n : Bool
  z : Bool
  c : Bool
  v : Bool
  i : Bool
  f : Bool
  t : Bool

/-- The two execution modes; `WORD_SIZE_ARM = 4`, `WORD_SIZE_THUMB = 2`. -/
inductive ExecutionMode
| arm
| thumb
deriving DecidableEq, Repr

/-- `cpsr.t` selects the mode (line 201): 0 is `MODE_ARM`. -/
def PSR.mode (p : PSR) : ExecutionMode :=
  if p.t then ExecutionMode.thumb else ExecutionMode.arm

/-- The CPU collaborator as the debugger reads it: 16 general registers
(index 15 is `ARM_PC`) and the status register, all 32-bit. -/
structure CPU where
  gprs : Nat → Nat
  cpsr : PSR

/-- `_printPSR` (lines 80-89): `%08X [%c%c%c%c%c%c%c]`. -/
def _printPSR (p : PSR) : String :=
  hexPad 8 (p.packed % 2 ^ 32) ++ " [" ++
    String.mk [if p.n then 'N' else '-', if p.z then 'Z' else '-',
      if p.c then 'C' else '-', if p.v then 'V' else '-',
      if p.i then 'I' else '-', if p.f then 'F' else '-',
      if p.t then 'T' else '-'] ++ "]\n"

/-- One `%08X %08X %08X %08X` register row of `_printStatus`. -/
def gprRow (cpu : CPU) (r : Nat) : String :=
  hexPad 8 (cpu.gprs (4 * r) % 2 ^ 32) ++ " " ++
    hexPad 8 (cpu.gprs (4 * r + 1) % 2 ^ 32) ++ " " ++
    hexPad 8 (cpu.gprs (4 * r + 2) % 2 ^ 32) ++ " " ++
    hexPad 8 (cpu.gprs (4 * r + 3) % 2 ^ 32) ++ "\n"

/-- Instruction width for a mode: `WORD_SIZE_ARM`/`WORD_SIZE_THUMB`. -/
def wordSize : ExecutionMode → Nat
| ExecutionMode.arm => 4
| ExecutionMode.thumb => 2

/-- `_printStatus` (lines 189-208): four register rows, the PSR line, then one
disassembled line at `PC - instructionLength`.  `printLine` abstracts
`_printLine` (lines 173-187), whose decoding and memory loads are external
collaborators. -/
def _printStatus (printLine : CPU → Nat → ExecutionMode → String)
    (cpu : CPU) : List String :=
  [gprRow cpu 0, gprRow cpu 1, gprRow cpu 2, gprRow cpu 3,
    _printPSR cpu.cpsr,
    printLine cpu ((cpu.gprs 15 + (2 ^ 32 - wordSize cpu.cpsr.mode)) % 2 ^ 32)
      cpu.cpsr.mode]

/-- `enum DebuggerState` values the CLI debugger uses. -/
inductive DebuggerState
| paused
| running
| shutdown
| exiting
deriving DecidableEq, Repr

/-- The session object (`struct CLIDebugger`): the run state, the CPU
collaborator, and the console history resource. -/
structure Session where
  state : DebuggerState
  cpu : CPU
  hist : List (List Char)

/-- `_next` (lines 118-122): run exactly one externally-driven CPU step
(`ARMRun`, abstracted as `step`), then print the full status dump. -/
def _next (step : CPU → CPU) (printLine : CPU → Nat → ExecutionMode → String)
    (s : Session) : Session × List String :=
  let cpu := step s.cpu
  (⟨s.state, cpu, s.hist⟩, _printStatus printLine cpu)

/-- `_print` (lines 157-163): ` %u` per node then a newline; the session is
unused (`UNUSED(debugger)`) and returned unchanged. -/
def _print (s : Session) (dv : List DVNode) : Session × String :=
  (s, String.join (dv.map (fun n => " " ++ toString n.intValue)) ++ "\n")

/-- `_printHex` (lines 165-171): ` 0x%08X` per node then a newline. -/
def _printHex (s : Session) (dv : List DVNode) : Session × String :=
  (s, String.join (dv.map (fun n => " 0x" ++ hexPad 8 (n.intValue % 2 ^ 32))) ++ "\n")

/-- A concrete segment evaluator used to exercise the theorems below: the
segment `0` fails to evaluate (as `2/0` would), every other segment
evaluates to 1. -/
def evW : List Char → Option Nat :=
  fun s => if s = ['0'] then none else some 1

theorem performOperation_fst (op : Operation) (a b : Nat) (e : Bool) :
    (_performOperation op a b e).1 = (_performOperation op a b false).1 := by
  cases op <;> simp [_performOperation]
  split <;> simp

theorem performOperation_snd (op : Operation) (a b : Nat) (e : Bool) :
    (_performOperation op a b e).2 = (e || (_performOperation op a b false).2) := by
  cases op <;> simp [_performOperation]
  split <;> simp

theorem evaluateParseTree_eq (t : ParseTree) (e : Bool) :
    _evaluateParseTree t e = (treeVal t, e || treeErr t) := by
  induction t generalizing e with
  | num v => simp [_evaluateParseTree, treeVal, treeErr]
  | ident => simp [_evaluateParseTree, treeVal, treeErr]
  | err => simp [_evaluateParseTree, treeVal, treeErr]
  | node op l r ihl ihr =>
    have hperf : ∀ E, _performOperation op (treeVal l) (treeVal r) E
        = ((_performOperation op (treeVal l) (treeVal r) false).1,
           E || (_performOperation op (treeVal l) (treeVal r) false).2) := by
      intro E
      rw [Prod.ext_iff]
      exact ⟨performOperation_fst op _ _ E, performOperation_snd op _ _ E⟩
    simp only [_evaluateParseTree]
    rw [ihl, ihr]
    show _performOperation op (treeVal l) (treeVal r) ((e || treeErr l) || treeErr r)
        = (treeVal (ParseTree.node op l r), e || treeErr (ParseTree.node op l r))
    rw [hperf]
    simp only [treeVal, treeErr]
    simp [Bool.or_assoc]

theorem specEval32_lt (t : ParseTree) : specEval32 t < 2 ^ 32 := by
  induction t with
  | num v => exact Nat.mod_lt _ (by norm_num)
  | ident => simp [specEval32]
  | err => simp [specEval32]
  | node op l r ihl ihr =>
    cases op <;> simp only [specEval32]
    · exact ihr
    · exact Nat.mod_lt _ (by norm_num)
    · exact Nat.mod_lt _ (by norm_num)
    · exact Nat.mod_lt _ (by norm_num)
    · exact Nat.lt_of_le_of_lt (Nat.div_le_self _ _) ihl

theorem eval_spec_of_wf (t : ParseTree) (hwf : wellFormed t = true)
    (hdz : noDivZero t = true) :
    treeVal t = specEval32 t ∧ treeErr t = false := by
  induction t with
  | num v =>
    simp only [wellFormed, decide_eq_true_eq] at hwf
    exact ⟨(Nat.mod_eq_of_lt hwf).symm, rfl⟩
  | ident => simp [wellFormed] at hwf
  | err => simp [wellFormed] at hwf
  | node op l r ihl ihr =>
    simp only [wellFormed, Bool.and_eq_true] at hwf
    simp only [noDivZero, Bool.and_eq_true, Bool.or_eq_true] at hdz
    obtain ⟨hvl, hel⟩ := ihl hwf.1 hdz.1.1
    obtain ⟨hvr, her⟩ := ihr hwf.2 hdz.1.2
    simp only [treeVal, treeErr, hvl, hvr, hel, her]
    cases op with
    | assign => simp [_performOperation, specEval32]
    | add => simp [_performOperation, specEval32]
    | subtract =>
      simp only [_performOperation, specEval32,
        Nat.mod_eq_of_lt (specEval32_lt r)]
      simp
    | multiply => simp [_performOperation, specEval32]
    | divide =>
      have hr0 : specEval32 r ≠ 0 := by
        rcases hdz.2 with h | h
        · simp at h
        · simpa using h
      simp [_performOperation, specEval32, hr0]

theorem headErr_ifnode (c : Bool) (v : Nat) (tail : List DVNode) :
    headErr ((if c then (⟨DVType.error, v⟩ : DVNode) else ⟨DVType.int, v⟩) :: tail)
      = c := by
  cases c <;> simp [headErr]

theorem DVBuild_cons_some (ev : List Char → Option Nat) (seg a : List Char)
    (b : List (List Char)) (v : Nat) (hev : ev seg = some v) :
    DVBuild ev (seg :: a :: b)
      = (if headErr (DVBuild ev (a :: b)) then (⟨DVType.error, v⟩ : DVNode)
          else ⟨DVType.int, v⟩) :: DVBuild ev (a :: b) := by
  simp only [DVBuild, hev]

theorem headErr_DVBuild_iff (ev : List Char → Option Nat)
    (segs : List (List Char)) :
    headErr (DVBuild ev segs) = true ↔ ∃ seg ∈ segs, ev seg = none := by
  induction segs with
  | nil => simp [DVBuild, headErr]
  | cons seg rest ih =>
    cases hev : ev seg with
    | none =>
      simp only [DVBuild, hev]
      simp only [headErr, List.mem_cons]
      constructor
      · intro _
        exact ⟨seg, Or.inl rfl, hev⟩
      · intro _
        simp
    | some v =>
      cases rest with
      | nil =>
        simp only [DVBuild, hev]
        simp only [headErr, List.mem_cons, List.not_mem_nil]
        constructor
        · intro h
          exact absurd (of_decide_eq_true h) (by simp)
        · rintro ⟨x, hx | hx, hxe⟩
          · subst hx
            rw [hev] at hxe
            cases hxe
          · cases hx
      | cons a b =>
        rw [DVBuild_cons_some ev seg a b v hev, headErr_ifnode, ih]
        constructor
        · rintro ⟨x, hx, hxe⟩
          exact ⟨x, List.mem_cons_of_mem seg hx, hxe⟩
        · rintro ⟨x, hx, hxe⟩
          rcases List.mem_cons.mp hx with h | h
          · subst h
            rw [hev] at hxe
            cases hxe
          · exact ⟨x, h, hxe⟩

/-- The sequence built by `DVBuild` is entirely INT nodes or entirely ERROR
nodes. -/
theorem DVBuild_dichotomy (ev : List Char → Option Nat)
    (segs : List (List Char)) :
    (∀ n ∈ DVBuild ev segs, n.type = DVType.int) ∨
      (∀ n ∈ DVBuild ev segs, n.type = DVType.error) := by
  induction segs with
  | nil => left; simp [DVBuild]
  | cons seg rest ih =>
    cases hev : ev seg with
    | none =>
      right
      simp only [DVBuild, hev]
      intro n hn
      rw [List.mem_singleton] at hn
      rw [hn]
    | some v =>
      cases rest with
      | nil =>
        left
        simp only [DVBuild, hev]
        intro n hn
        rw [List.mem_singleton] at hn
        rw [hn]
      | cons a b =>
        rw [DVBuild_cons_some ev seg a b v hev]
        by_cases ht : headErr (DVBuild ev (a :: b)) = true
        · right
          rw [if_pos ht]
          intro n hn
          rcases List.mem_cons.mp hn with h | h
          · rw [h]
          · rcases ih with hall | hall
            · exfalso
              cases hb : DVBuild ev (a :: b) with
              | nil => rw [hb] at ht; simp [headErr] at ht
              | cons m l =>
                rw [hb] at ht
                simp only [headErr, decide_eq_true_eq] at ht
                have hm := hall m (by rw [hb]; exact List.mem_cons_self m l)
                rw [hm] at ht
                cases ht
            · exact hall n h
        · left
          rw [if_neg ht]
          intro n hn
          rcases List.mem_cons.mp hn with h | h
          · rw [h]
          · rcases ih with hall | hall
            · exact hall n h
            · exfalso
              cases hb : DVBuild ev (a :: b) with
              | nil => rw [hb] at h; cases h
              | cons m l =>
                have hm := hall m (by rw [hb]; exact List.mem_cons_self m l)
                rw [hb] at ht
                simp only [headErr, hm] at ht
                exact ht (by simp)

theorem sncmp_eq_zero (a b : List Char) (n : Nat) (hlen : a.length = n)
    (hnz : ∀ c ∈ a, lowerC c ≠ 0) (h : sncmp a b n = 0) :
    a.map lowerC = (b.take n).map lowerC := by
  induction a generalizing b n with
  | nil =>
    subst hlen
    simp
  | cons x xs ih =>
    subst hlen
    cases b with
    | nil =>
      exfalso
      simp only [sncmp] at h
      exact hnz x (List.mem_cons_self x xs) (by exact_mod_cast h)
    | cons y ys =>
      simp only [sncmp] at h
      by_cases hxy : lowerC x = lowerC y
      · rw [if_pos hxy] at h
        have := ih ys xs.length rfl
          (fun c hc => hnz c (List.mem_cons_of_mem x hc)) h
        simp only [List.length_cons, List.take_succ_cons, List.map_cons]
        rw [hxy, this]
      · rw [if_neg hxy] at h
        exfalso
        apply hxy
        omega

theorem findCommandAux_sound (line : List Char) (n : Nat)
    (names : List String) (k j : Nat)
    (h : findCommandAux line n names k = some j) :
    k ≤ j ∧ ∃ nm, names.get? (j - k) = some nm ∧ nm.length = n ∧
      sncmp nm.toList line n = 0 := by
  induction names generalizing k with
  | nil => simp [findCommandAux] at h
  | cons nm rest ih =>
    simp only [findCommandAux] at h
    by_cases hc : nm.length = n ∧ sncmp nm.toList line n = 0
    · rw [if_pos hc] at h
      cases h
      exact ⟨Nat.le_refl _, nm, by simp, hc.1, hc.2⟩
    · rw [if_neg hc] at h
      obtain ⟨hle, m, hm, hml, hms⟩ := ih (k + 1) h
      refine ⟨Nat.le_of_succ_le hle, m, ?_, hml, hms⟩
      have hjk : j - k = (j - (k + 1)) + 1 := by omega
      rw [hjk]
      simpa using hm

theorem commandNames_lower_nz :
    ∀ nm ∈ commandNames, ∀ c ∈ nm.toList, lowerC c ≠ 0 := by
  decide

theorem headErr_DVParse_iff (ev : List Char → Option Nat) (s : List Char) :
    headErr (_DVParse ev s) = true ↔ ∃ seg ∈ dvSegments s, ev seg = none :=
  headErr_DVBuild_iff ev (dvSegments s)

/-- C1: for every command line whose argument text contains a segment whose
evaluation fails, the argument sequence built by `_DVParse` has an ERROR head
node, and `_parse` prints "Parse error", returns 0 and invokes no handler. -/
theorem c1_parse_error_no_handler (ev : List Char → Option Nat)
    (line : List Char) (i : Nat) (hi : firstSpaceIdx line = some i)
    (hfail : ∃ seg ∈ dvSegments (line.drop (i + 1)), ev seg = none) :
    headErr (argsOf ev line) = true ∧
      _parse ev line = ⟨false, ["Parse error"], none⟩ := by
  have hargs : argsOf ev line = _DVParse ev (line.drop (i + 1)) := by
    simp [argsOf, hi]
  have herr : headErr (argsOf ev line) = true := by
    rw [hargs, headErr_DVParse_iff]
    exact hfail
  refine ⟨herr, ?_⟩
  simp [_parse, herr]

theorem c1_witness :
    firstSpaceIdx ['p', ' ', '0'] = some 1 ∧
      (∃ seg ∈ dvSegments (['p', ' ', '0'].drop 2), evW seg = none) ∧
      _parse evW ['p', ' ', '0'] = ⟨false, ["Parse error"], none⟩ :=
  ⟨by decide, by decide,
    (c1_parse_error_no_handler evW ['p', ' ', '0'] 1 (by decide) (by decide)).2⟩

/-- C2: command lookup succeeds only on a table entry whose name length
equals the verb length and whose characters match case-insensitively; the
strict prefix `pr` of `print` matches nothing; and when no entry matches,
`_parse` prints "Command not found" and returns 0. -/
theorem c2_lookup_exact :
    (∀ (line : List Char) (n i : Nat), findCommand line n = some i →
       ∃ nm, commandNames.get? i = some nm ∧ nm.length = n ∧
         nm.toList.map lowerC = (line.take n).map lowerC) ∧
    (∀ ev, _parse ev ['p', 'r'] = ⟨false, ["Command not found"], none⟩) ∧
    (∀ (ev : List Char → Option Nat) (line : List Char),
       headErr (argsOf ev line) = false →
       findCommand line (cmdLenOf line) = none →
       _parse ev line = ⟨false, ["Command not found"], none⟩) := by
  refine ⟨?_, ?_, ?_⟩
  · intro line n i h
    obtain ⟨-, nm, hget, hlen, hcmp⟩ := findCommandAux_sound line n commandNames 0 i h
    rw [Nat.sub_zero] at hget
    refine ⟨nm, hget, hlen, ?_⟩
    have hmem : nm ∈ commandNames := List.get?_mem hget
    have hlen' : nm.toList.length = n := by
      rw [← hlen]
      rfl
    exact sncmp_eq_zero nm.toList line n hlen' (commandNames_lower_nz nm hmem) hcmp
  · intro ev
    rfl
  · intro ev line hdv hfind
    simp [_parse, hdv, hfind]

theorem c2_witness :
    _parse evW ['z'] = ⟨false, ["Command not found"], none⟩ :=
  c2_lookup_exact.2.2 evW ['z'] (by decide) (by decide)

/-- C3 (evaluation at the failing input): the typed prefix `z` shares no
table entry at scanned position 1, yet `_tabComplete` reaches the
out-of-bounds path (the C code reads `_debuggerCommands[26]` past the
sentinel and offsets the NULL name) instead of reporting no-match. -/
theorem c3_tab_oob :
    commandNames.all (fun nm => sncmp nm.toList ['z'] 1 ≠ 0) = true ∧
      _tabComplete ['z'] = TCRes.oob := by
  decide

/-- C4: on well-formed trees over unsigned 32-bit operands with no division
by zero, `_evaluateParseTree` computes standard unsigned 32-bit wraparound
arithmetic and leaves the error flag clear. -/
theorem c4_eval_unsigned32 (t : ParseTree) (hwf : wellFormed t = true)
    (hdz : noDivZero t = true) :
    _evaluateParseTree t false = (specEval32 t, false) := by
  obtain ⟨hv, he⟩ := eval_spec_of_wf t hwf hdz
  rw [evaluateParseTree_eq, hv, he]
  simp

theorem c4_witness :
    _evaluateParseTree
      (ParseTree.node Operation.add (ParseTree.num 4294967295) (ParseTree.num 2))
      false = (1, false) :=
  (c4_eval_unsigned32
    (ParseTree.node Operation.add (ParseTree.num 4294967295) (ParseTree.num 2))
    (by decide) (by decide)).trans (by decide)

/-- C5: whenever some division node's right child evaluates to zero, the
evaluation of the whole tree reports ERROR, whatever the incoming flag and
wherever the division occurs. -/
theorem c5_divzero_propagates (t : ParseTree) (e : Bool)
    (h : hasDivZero t = true) : (_evaluateParseTree t e).2 = true := by
  rw [evaluateParseTree_eq]
  suffices hs : treeErr t = true by simp [hs]
  clear e
  induction t with
  | num v => simp [hasDivZero] at h
  | ident => simp [treeErr]
  | err => simp [treeErr]
  | node op l r ihl ihr =>
    simp only [hasDivZero, Bool.or_eq_true, Bool.and_eq_true,
      decide_eq_true_eq] at h
    simp only [treeErr, Bool.or_eq_true]
    rcases h with (h | h) | ⟨hop, hval⟩
    · exact Or.inl (Or.inl (ihl h))
    · exact Or.inl (Or.inr (ihr h))
    · right
      subst hop
      rw [hval]
      simp [_performOperation]

theorem c5_witness :
    hasDivZero (ParseTree.node Operation.divide (ParseTree.num 6) (ParseTree.num 0))
        = true ∧
      (_evaluateParseTree
        (ParseTree.node Operation.divide (ParseTree.num 6) (ParseTree.num 0))
        false).2 = true :=
  ⟨by decide,
    c5_divzero_propagates
      (ParseTree.node Operation.divide (ParseTree.num 6) (ParseTree.num 0))
      false (by decide)⟩

/-- C6: a line is appended to history exactly when `_parse` returned 1 (verb
recognized, handler invoked); parse errors and unknown verbs leave history
unchanged; a blank line re-dispatches the most recent history entry when one
exists and does nothing otherwise; and `_parse` returns 1 iff it invoked a
handler. -/
theorem c6_history_append (ev : List Char → Option Nat)
    (hist : List (List Char)) (input : List Char) :
    (input.head? ≠ some '\n' →
       _commandLine_step ev hist input =
         (if (_parse ev input.dropLast).handled then input :: hist else hist,
          [input.dropLast])) ∧
    (input.head? = some '\n' →
       _commandLine_step ev hist input =
         (hist, (hist.head?.map List.dropLast).toList)) ∧
    ((_parse ev input.dropLast).handled = true ↔
      ((_parse ev input.dropLast).invoked).isSome = true) := by
  refine ⟨?_, ?_, ?_⟩
  · intro hnb
    rw [_commandLine_step, if_neg hnb]
    by_cases hp : (_parse ev input.dropLast).handled = true
    · rw [if_pos hp, if_pos hp]
    · rw [if_neg hp, if_neg hp]
  · intro hb
    rw [_commandLine_step, if_pos hb]
    cases hist with
    | nil => rfl
    | cons prev rest => rfl
  · rw [_parse]
    by_cases hdv : headErr (argsOf ev input.dropLast) = true
    · simp [hdv]
    · simp only [Bool.not_eq_true] at hdv
      simp only [hdv, Bool.false_eq_true, if_neg (by simp : ¬False)]
      cases findCommand input.dropLast (cmdLenOf input.dropLast) with
      | none => simp
      | some i => simp

theorem c6_witness :
    _commandLine_step evW [] ['f', 'o', 'o', '\n'] = ([], [['f', 'o', 'o']]) := by
  have h := (c6_history_append evW [] ['f', 'o', 'o', '\n']).1 (by decide)
  rw [h]
  decide

/-- C7: each address-taking handler (`break`/`b`, `delete`/`d`, `watch`/`w`,
`rb`, `rh`, `rw`) given an empty argument sequence or a head node that is not
an integer prints "Arguments missing" and performs no memory read and no
breakpoint or watchpoint operation. -/
theorem c7_missing_args (dv : List DVNode) (l8 l16 l32 : Nat → Nat)
    (h : ∀ n, dv.head? = some n → n.type ≠ DVType.int) :
    _setBreakpoint dv = [Effect.print "Arguments missing\n"] ∧
    _clearBreakpoint dv = [Effect.print "Arguments missing\n"] ∧
    _setWatchpoint dv = [Effect.print "Arguments missing\n"] ∧
    _readByte l8 dv = [Effect.print "Arguments missing\n"] ∧
    _readHalfword l16 dv = [Effect.print "Arguments missing\n"] ∧
    _readWord l32 dv = [Effect.print "Arguments missing\n"] := by
  cases dv with
  | nil => exact ⟨rfl, rfl, rfl, rfl, rfl, rfl⟩
  | cons n l =>
    obtain ⟨ty, v⟩ := n
    cases ty with
    | int => exact absurd rfl (h ⟨DVType.int, v⟩ rfl)
    | error => exact ⟨rfl, rfl, rfl, rfl, rfl, rfl⟩
    | char => exact ⟨rfl, rfl, rfl, rfl, rfl, rfl⟩

theorem c7_witness :
    _setBreakpoint [] = [Effect.print "Arguments missing\n"] ∧
    _clearBreakpoint [] = [Effect.print "Arguments missing\n"] ∧
    _setWatchpoint [] = [Effect.print "Arguments missing\n"] ∧
    _readByte id [] = [Effect.print "Arguments missing\n"] ∧
    _readHalfword id [] = [Effect.print "Arguments missing\n"] ∧
    _readWord id [] = [Effect.print "Arguments missing\n"] :=
  c7_missing_args [] id id id (by intro n hn; cases hn)

/-- C8: `next` applies the external CPU step exactly once and then prints the
full status dump of the stepped CPU; the session's run state and every other
session field are unchanged. -/
theorem c8_next_frame (step : CPU → CPU)
    (printLine : CPU → Nat → ExecutionMode → String) (s : Session) :
    (_next step printLine s).1.state = s.state ∧
    (_next step printLine s).1.hist = s.hist ∧
    (_next step printLine s).1.cpu = step s.cpu ∧
    (_next step printLine s).2 = _printStatus printLine (step s.cpu) :=
  ⟨rfl, rfl, rfl, rfl⟩

theorem c9_counterexample :
    _DVParse evW ['1', ' ', '0']
      = [⟨DVType.error, 1⟩, ⟨DVType.error, 0⟩] := by
  decide

theorem poisoning_of_dichotomy (l : List DVNode)
    (hdi : (∀ n ∈ l, n.type = DVType.int) ∨ (∀ n ∈ l, n.type = DVType.error)) :
    ((∃ n ∈ l, n.type = DVType.error) → headErr l = true) ∧
    (headErr l = false → ∀ n ∈ l, n.type = DVType.int) := by
  constructor
  · rintro ⟨n, hn, hne⟩
    rcases hdi with hall | hall
    · rw [hall n hn] at hne
      cases hne
    · cases l with
      | nil => cases hn
      | cons m r =>
        have hm := hall m (List.mem_cons_self m r)
        simp [headErr, hm]
  · intro hne n hn
    rcases hdi with hall | hall
    · exact hall n hn
    · cases l with
      | nil => cases hn
      | cons m r =>
        exfalso
        have hm := hall m (List.mem_cons_self m r)
        simp [headErr, hm] at hne

/-- C9 (amended): every sequence returned by `_DVParse` is entirely INT nodes
or entirely ERROR nodes; if any node is ERROR the head is ERROR; and a
non-ERROR head implies every node is a well-formed integer node. -/
theorem c9_sequence_poisoning (ev : List Char → Option Nat) (s : List Char) :
    ((∀ n ∈ _DVParse ev s, n.type = DVType.int) ∨
      (∀ n ∈ _DVParse ev s, n.type = DVType.error)) ∧
    ((∃ n ∈ _DVParse ev s, n.type = DVType.error) →
      headErr (_DVParse ev s) = true) ∧
    (headErr (_DVParse ev s) = false →
      ∀ n ∈ _DVParse ev s, n.type = DVType.int) :=
  ⟨DVBuild_dichotomy ev (dvSegments s),
    (poisoning_of_dichotomy (_DVParse ev s)
      (DVBuild_dichotomy ev (dvSegments s))).1,
    (poisoning_of_dichotomy (_DVParse ev s)
      (DVBuild_dichotomy ev (dvSegments s))).2⟩

theorem c9_witness :
    headErr (_DVParse evW ['1', ' ', '0']) = true :=
  (c9_sequence_poisoning evW ['1', ' ', '0']).2.1 (by decide)

/-- C10: the `print`/`print/x` handlers on an empty (null) argument sequence
print exactly one blank line — not "Arguments missing" — and leave the
session unchanged. -/
theorem c10_print_empty (s : Session) :
    _print s [] = (s, "\n") ∧ _printHex s [] = (s, "\n") :=
  ⟨rfl, rfl⟩

end CLIDebugger
